import Mathlib

/-!
Verification of the voice-profile loader (`src/tts_test/voice_profiles.py`)
and the ElevenLabs response normalizer (`src/tts_test/elevenlabs_tts.py`).

The Python code is shallowly embedded:

* JSON scalar values that can appear in a profile record are the inductive
  `PyVal` (`None`, booleans, numbers, strings).  JSON arrays/objects as
  field values are not modelled; no claim depends on them.
* Python floats are modelled as rationals (`ℚ`); the claims under study do
  not depend on floating-point rounding.
* A profiles directory is a `ConfigDir`: its files as
  `(file name, parsed record)` pairs plus the optional content of the
  `default_profile.txt` marker.  `pathlib.Path.glob("*.json")` matches
  every name ending in `.json`, dotfiles included (`matchesJson`);
  `sorted(...)` sorts by filename (code-point order), reproduced by an
  insertion sort; the profile name is `Path.stem` (`stemOf`), the name up
  to its last dot when that dot is neither first nor last.
* Exceptions are modelled with `Except`: each `ValueError` site of the
  loader gets its own `LoadError` constructor carrying the data the
  message cites.
-/

namespace TtsTest

/-- Decidable equality on `Except` results, so concrete witness runs can be
settled by `decide`. -/
instance {ε α : Type} [DecidableEq ε] [DecidableEq α] : DecidableEq (Except ε α) :=
  fun a b =>
  match a, b with
  | .ok x, .ok y => if h : x = y then .isTrue (by rw [h]) else .isFalse (by simp [h])
  | .error x, .error y => if h : x = y then .isTrue (by rw [h]) else .isFalse (by simp [h])
  | .ok _, .error _ => .isFalse (by simp)
  | .error _, .ok _ => .isFalse (by simp)

/-- A Python value that may appear as a field of a parsed profile record:
`None` (also the result of `dict.get` on an absent key), booleans, numbers
(`float`/`int`, modelled as `ℚ`) and strings.  JSON arrays/objects are not
modelled. -/
inductive PyVal where
  | PNone : PyVal
  | PBool : Bool → PyVal
  | PNum : ℚ → PyVal
  | PStr : String → PyVal
deriving DecidableEq, Repr

open PyVal

/-- A parsed JSON record (a Python dict) as an association list with
distinct keys. -/
abbrev Item : Type := List (String × PyVal)

/-- Embeds `item.get(k)`: the value at `k`, or `None` when the key is absent. -/
def pyGet (item : Item) (k : String) : PyVal :=
  (List.lookup k item).getD PNone

/-- Embeds `item.get(k, d)`: the value at `k`, or the default `d` when absent. -/
def pyGetD (item : Item) (k : String) (d : PyVal) : PyVal :=
  (List.lookup k item).getD d

/-- Python truthiness of a `PyVal` (`if not voice_id: ...`). -/
def truthy : PyVal → Bool
  | PNone => false
  | PBool b => b
  | PNum q => q ≠ 0
  | PStr s => s ≠ ""

/-- Python `==` between a `PyVal` and a `str`: only an equal string
compares equal (no cross-type equality with `str`). -/
def pyEqStr (v : PyVal) (s : String) : Bool :=
  match v with
  | PStr t => t == s
  | _ => false

/-- Value of a list of decimal digits. -/
def digitsVal (l : List Char) : Nat :=
  l.foldl (fun acc c => acc * 10 + (c.toNat - 48)) 0

/-- Modelled from the spec: the numeric fields are "coerced to floating
point; a non-numeric value fails with a type/parse error" (Python's
`float(...)`, whose full grammar is not repository code).  Decimal string
literals: optional sign, digits with at most one point. -/
def parseDecimal (s : String) : Option ℚ :=
  let core : List Char → Option ℚ := fun l =>
    let intPart := l.takeWhile (fun c => c ≠ '.')
    let rest := l.dropWhile (fun c => c ≠ '.')
    let frac := rest.drop 1
    if intPart.all Char.isDigit ∧ frac.all Char.isDigit
        ∧ (intPart ≠ [] ∨ frac ≠ []) ∧ (rest = [] ∨ rest.take 1 = ['.']) then
      some ((digitsVal intPart : ℚ) + (digitsVal frac : ℚ) / ((10 : ℚ) ^ frac.length))
    else none
  match s.toList with
  | '-' :: l => (core l).map (fun q => -q)
  | '+' :: l => core l
  | l => core l

/-- Modelled from the spec: Python `float(x)` coercion.  Numbers pass
through, booleans become 0/1, numeric strings are parsed, everything else
(including `None`) raises. -/
def pyFloat : PyVal → Option ℚ
  | PNum q => some q
  | PBool b => some (if b then 1 else 0)
  | PStr s => parseDecimal s
  | PNone => none

/-- An immutable loaded voice profile (dataclass `VoiceProfile`).  The
`profile_id`, `voice_id` and `model_id` fields hold whatever record value
was stored (the Python dataclass does not enforce its `str` annotations). -/
structure VoiceProfile where
  name : String
  profile_id : PyVal
  voice_id : PyVal
  model_id : PyVal
  stability : ℚ
  similarity_boost : ℚ
  style_exaggeration : ℚ
  speed : ℚ
deriving DecidableEq, Repr

/-- The distinct `ValueError`s the loader can raise, each carrying the data
its message cites. -/
inductive LoadError where
  /-- Raised when `config_path` is not a directory. -/
  | notADirectory : LoadError
  /-- No profile JSON files found in the directory. -/
  | noProfileFiles : LoadError
  /-- Raised as `profileId must match filename`: carries the file name and
  the declared id. -/
  | profileIdMismatch : String → PyVal → LoadError
  /-- Missing required `voiceId` in the named profile. -/
  | missingVoiceId : String → LoadError
  /-- Missing required `modelId` in the named profile. -/
  | missingModelId : String → LoadError
  /-- Raised when `float(...)` failed on the named field of the named profile. -/
  | nonNumericField : String → String → LoadError
deriving DecidableEq, Repr

/-- Embeds `_build_profile(name, item)`: the required-field checks in source
order, then the four numeric coercions in dataclass-argument order (the
first non-numeric one raises). -/
def _build_profile (name : String) (item : Item) : Except LoadError VoiceProfile :=
  if ¬ truthy (pyGet item "voiceId") then .error (.missingVoiceId name)
  else if ¬ truthy (pyGet item "modelId") then .error (.missingModelId name)
  else
    match pyFloat (pyGetD item "stability" (PNum (1 / 2))),
        pyFloat (pyGetD item "similarityBoost" (PNum (1 / 2))),
        pyFloat (pyGetD item "styleExaggeration" (PNum 0)),
        pyFloat (pyGetD item "speed" (PNum 1)) with
    | some stability, some similarity_boost, some style_exaggeration, some speed =>
        .ok ⟨name, pyGetD item "profileId" (PStr name), pyGet item "voiceId",
          pyGet item "modelId", stability, similarity_boost, style_exaggeration, speed⟩
    | none, _, _, _ => .error (.nonNumericField name "stability")
    | _, none, _, _ => .error (.nonNumericField name "similarityBoost")
    | _, _, none, _ => .error (.nonNumericField name "styleExaggeration")
    | _, _, _, none => .error (.nonNumericField name "speed")

/-- A profiles directory: its candidate files as `(file name, parsed
record)` pairs (in arbitrary order; `_load_from_directory` selects the
names `glob("*.json")` matches) and the content of `default_profile.txt`
when that marker file exists. -/
structure ConfigDir where
  jsonFiles : List (String × Item)
  defaultMarker : Option String

/-- Embeds `pathlib.Path.glob("*.json")` membership: every file name
ending in `.json`, dotfiles included (verified against CPython: `.json`
and `.hidden.json` are matched). -/
def matchesJson (name : String) : Bool :=
  decide (5 ≤ name.toList.length)
    && (name.toList.drop (name.toList.length - 5) == ['.', 'j', 's', 'o', 'n'])

/-- Index of the last `'.'` in a character list, if any. -/
def lastDotPos : List Char → Option Nat
  | [] => none
  | c :: rest =>
      match lastDotPos rest with
      | some k => some (k + 1)
      | none => if c == '.' then some 0 else none

/-- Embeds `pathlib.PurePath.stem`: the name up to its last dot, when that
dot is neither the first nor the last character; otherwise the whole name
(so `.json` has stem `.json`, `alice.json` has stem `alice`). -/
def stemOf (name : String) : String :=
  match lastDotPos name.toList with
  | none => name
  | some i =>
      if 0 < i ∧ i < name.toList.length - 1 then String.mk (name.toList.take i)
      else name

/-- Python code-point order on strings, as a Boolean (`a <= b`). -/
def charListLe : List Char → List Char → Bool
  | [], _ => true
  | _ :: _, [] => false
  | a :: as, b :: bs =>
      a.toNat < b.toNat || (a.toNat == b.toNat && charListLe as bs)

/-- The `sorted(...)` comparison: paths in one directory compare by file
name. -/
def fileLe (a b : String × Item) : Bool :=
  charListLe a.1.toList b.1.toList

/-- Insert into a list sorted by `fileLe`. -/
def insertByName (x : String × Item) : List (String × Item) → List (String × Item)
  | [] => [x]
  | y :: ys => if fileLe x y then x :: y :: ys else y :: insertByName x ys

/-- Embeds `sorted(config_dir.glob("*.json"))`: the matching candidates in
filename order. -/
def sortFiles (files : List (String × Item)) : List (String × Item) :=
  (files.filter (fun f => matchesJson f.1)).foldr insertByName []

/-- Key membership in the insertion-ordered profile dict
(`name not in profiles`). -/
def keyMem (profiles : List (String × VoiceProfile)) (k : String) : Bool :=
  profiles.any (fun kv => kv.1 == k)

/-- Python dict insertion: an existing key keeps its position and gets the
new value; a new key is appended. -/
def dictInsert (d : List (String × VoiceProfile)) (k : String) (v : VoiceProfile) :
    List (String × VoiceProfile) :=
  if keyMem d k then d.map (fun kv => if kv.1 == k then (k, v) else kv)
  else d ++ [(k, v)]

/-- Embeds `next(iter(profiles))`: the first key of the insertion-ordered dict.
The `[]` case never arises (the loader requires at least one file). -/
def headKey : List (String × VoiceProfile) → String
  | [] => ""
  | (k, _) :: _ => k

/-- The loader's per-file loop: the profile name is the file's stem;
check `profileId` against it, build the profile, store it under the
stem. -/
def loadLoop : List (String × Item) → List (String × VoiceProfile) →
    Except LoadError (List (String × VoiceProfile))
  | [], profiles => .ok profiles
  | (name, item) :: rest, profiles =>
      if ¬ pyEqStr (pyGet item "profileId") (stemOf name) then
        .error (.profileIdMismatch name (pyGet item "profileId"))
      else
        match _build_profile (stemOf name) item with
        | .error e => .error e
        | .ok p => loadLoop rest (dictInsert profiles (stemOf name) p)

/-- The trimmed marker content (`""` when `default_profile.txt` does not
exist). -/
def markerContent : Option String → String
  | some s => s.trim
  | none => ""

/-- Embeds `_load_from_directory(config_dir)`. -/
def _load_from_directory (d : ConfigDir) :
    Except LoadError (List (String × VoiceProfile) × String) :=
  let files := sortFiles d.jsonFiles
  if files.isEmpty then .error .noProfileFiles
  else
    match loadLoop files [] with
    | .error e => .error e
    | .ok profiles =>
        let marker := markerContent d.defaultMarker
        .ok (profiles, if keyMem profiles marker then marker else headKey profiles)

/-- Embeds `load_voice_profiles(config_path)`: `none` stands for a path that is
not a directory. -/
def load_voice_profiles (config_path : Option ConfigDir) :
    Except LoadError (List (String × VoiceProfile) × String) :=
  match config_path with
  | none => .error .notADirectory
  | some d => _load_from_directory d

/-!
## Response normalization (`src/tts_test/elevenlabs_tts.py`)

Audio bytes are `List Nat` (each element a byte value).  A response value
(`RespVal`) is `None`, a `bytes`, a `str`, or some other object (`ROther`,
skipped by every `isinstance` test of the extraction loop).  The payload
and the response object's attribute bag are association lists.
-/

/-- A value of the coerced response mapping or a response-object attribute:
`None`, `bytes`, `str`, or any other Python object (which the extraction
loop skips). -/
inductive RespVal where
  | RNone : RespVal
  | RBytes : List Nat → RespVal
  | RStr : String → RespVal
  | ROther : RespVal
deriving DecidableEq, Repr

open RespVal

/-- The coerced response payload (a Python dict) as an association list. -/
abbrev Payload : Type := List (String × RespVal)

/-- Embeds `payload.get(k)`: `None` when the key is absent. -/
def payloadGet (payload : Payload) (k : String) : RespVal :=
  (List.lookup k payload).getD RNone

/-! ### base64 (Python `base64.b64decode` / standard encoding)

`base64.b64decode` (default, non-strict mode) discards characters outside
the base-64 alphabet, requires the remaining length to be a multiple of
four, decodes four characters to three bytes, treats `=` as end of data
(two data characters before it yield one byte, three yield two), and
rejects a single data character before padding. -/

/-- The standard base-64 alphabet. -/
def b64alphabet : List Char :=
  "ABCDEFGHIJKLMNOPQRSTUVWXYZabcdefghijklmnopqrstuvwxyz0123456789+/".toList

/-- The character for a six-bit value. -/
def b64char (n : Nat) : Char := b64alphabet.getD n 'A'

/-- The six-bit value of an alphabet character, `none` outside
the alphabet. -/
def b64val (c : Char) : Option Nat := b64alphabet.findIdx? (fun x => x == c)

/-- A character `b64decode` keeps: alphabet or padding. -/
def b64Keep (c : Char) : Bool := (b64val c).isSome || c == '='

/-- Embeds `base64.b64encode` on a byte list, as characters. -/
def b64encodeChars : List Nat → List Char
  | [] => []
  | [a] => [b64char (a / 4), b64char (a % 4 * 16), '=', '=']
  | [a, b] => [b64char (a / 4), b64char (a % 4 * 16 + b / 16),
      b64char (b % 16 * 4), '=']
  | a :: b :: c :: rest =>
      b64char (a / 4) :: b64char (a % 4 * 16 + b / 16) ::
      b64char (b % 16 * 4 + c / 64) :: b64char (c % 64) :: b64encodeChars rest

/-- Embeds `base64.b64encode` producing a string. -/
def b64encode (bytes : List Nat) : String := String.mk (b64encodeChars bytes)

/-- Decode a filtered character stream four characters at a time. -/
def b64decodeQuads : List Char → Option (List Nat)
  | [] => some []
  | c1 :: c2 :: c3 :: c4 :: rest =>
      match b64val c1, b64val c2 with
      | some s1, some s2 =>
          if c3 == '=' then some [s1 * 4 + s2 / 16]
          else
            match b64val c3 with
            | some s3 =>
                if c4 == '=' then some [s1 * 4 + s2 / 16, s2 % 16 * 16 + s3 / 4]
                else
                  match b64val c4 with
                  | some s4 =>
                      (b64decodeQuads rest).map
                        (fun bs => (s1 * 4 + s2 / 16) :: (s2 % 16 * 16 + s3 / 4) ::
                          (s3 % 4 * 64 + s4) :: bs)
                  | none => none
            | none => none
      | _, _ => if c1 == '=' then some [] else none
  | _ => none

/-- Embeds `base64.b64decode` (default non-strict mode) on a `str`: the
argument is first encoded as ASCII (a non-ASCII character raises), then
characters outside the alphabet are discarded and the quads decoded.
`none` models the raised error. -/
def b64decode (s : String) : Option (List Nat) :=
  if s.toList.all (fun c => c.toNat < 128) then b64decodeQuads (s.toList.filter b64Keep)
  else none

/-- The extraction loop of `_extract_audio_bytes`: skip `None`, return
`bytes` directly, return a decodable `str` decoded, skip anything else. -/
def firstAudio : List RespVal → Option (List Nat)
  | [] => none
  | RNone :: rest => firstAudio rest
  | RBytes b :: _ => some b
  | RStr s :: rest =>
      match b64decode s with
      | some b => some b
      | none => firstAudio rest
  | ROther :: rest => firstAudio rest

/-- The candidate values of `_extract_audio_bytes`: the three known field
names looked up on the coerced mapping, then (for the attributes that
exist) on the original response object. -/
def audioCandidates (payload : Payload) (response_obj : List (String × RespVal)) :
    List RespVal :=
  [payloadGet payload "audio_base64", payloadGet payload "audio_base_64",
    payloadGet payload "audio"]
  ++ ["audio_base64", "audio_base_64", "audio"].filterMap
      (fun attr => List.lookup attr response_obj)

/-- Insertion into a name-sorted string list (for the sorted key list the
extraction error cites). -/
def insertStr (x : String) : List String → List String
  | [] => [x]
  | y :: ys => if charListLe x.toList y.toList then x :: y :: ys else y :: insertStr x ys

/-- Embeds `sorted(payload.keys())`. -/
def sortedKeys (payload : Payload) : List String :=
  (payload.map Prod.fst).foldr insertStr []

/-- The error raised when no candidate field decodes, citing the sorted
payload keys. -/
inductive ExtractError where
  | noAudioField : List String → ExtractError
deriving DecidableEq, Repr

/-- Embeds `_extract_audio_bytes(payload, response)`. -/
def _extract_audio_bytes (payload : Payload) (response_obj : List (String × RespVal)) :
    Except ExtractError (List Nat) :=
  match firstAudio (audioCandidates payload response_obj) with
  | some b => .ok b
  | none => .error (.noAudioField (sortedKeys payload))

/-! ### Container selection and file contents -/

/-- Embeds `_extension_for_output_format(output_format)`:
`output_format.split("_", 1)[0]` is the prefix up to the first
underscore. -/
def _extension_for_output_format (output_format : String) : String :=
  if output_format == "pcm_16000" then "wav"
  else String.mk (output_format.toList.takeWhile (fun c => c ≠ '_'))

/-- Two bytes, little endian (`struct`-style `<H`). -/
def u16le (n : Nat) : List Nat := [n % 256, n / 256 % 256]

/-- Four bytes, little endian (`struct`-style `<L`). -/
def u32le (n : Nat) : List Nat :=
  [n % 256, n / 256 % 256, n / 65536 % 256, n / 16777216 % 256]

/-- The byte values of an ASCII tag. -/
def asciiBytes (s : String) : List Nat := s.toList.map Char.toNat

/-- Modelled from the spec: the "standard uncomplicated audio-container
header" (RIFF/WAVE, PCM, 1 channel, 2-byte samples, 16000 Hz) that the
standard-library `wave` module — not repository code — writes in
`_write_pcm_16khz_wav`. -/
def wavBytes (pcm : List Nat) : List Nat :=
  asciiBytes "RIFF" ++ u32le (36 + pcm.length) ++ asciiBytes "WAVE"
    ++ asciiBytes "fmt " ++ u32le 16 ++ u16le 1 ++ u16le 1 ++ u32le 16000
    ++ u32le 32000 ++ u16le 2 ++ u16le 16 ++ asciiBytes "data"
    ++ u32le pcm.length ++ pcm

/-- Embeds `_write_pcm_16khz_wav`: the bytes the wrapped file holds. -/
def _write_pcm_16khz_wav (pcm_bytes : List Nat) : List Nat := wavBytes pcm_bytes

/-- Embeds `_write_audio_file`: the bytes the audio file holds. -/
def _write_audio_file (output_format : String) (audio_bytes : List Nat) : List Nat :=
  if output_format == "pcm_16000" then _write_pcm_16khz_wav audio_bytes
  else audio_bytes

/-- What a WAV reader reports back from a file: channel count, sample
width in bytes, frame rate, and the audio payload. -/
structure WavInfo where
  nchannels : Nat
  sampwidth : Nat
  framerate : Nat
  data : List Nat
deriving DecidableEq, Repr

/-- Little-endian read of two bytes at the head of a list. -/
def readU16 (l : List Nat) : Nat := l.getD 0 0 + 256 * l.getD 1 0

/-- Little-endian read of four bytes at the head of a list. -/
def readU32 (l : List Nat) : Nat :=
  l.getD 0 0 + 256 * l.getD 1 0 + 65536 * l.getD 2 0 + 16777216 * l.getD 3 0

/-- Modelled from the spec: "reading the header back" of a RIFF/WAVE file.
Checks the four magic tags and reports channels, sample width
(bits / 8), frame rate and the payload after the 44-byte header. -/
def readWav (bytes : List Nat) : Option WavInfo :=
  if bytes.take 4 = asciiBytes "RIFF" ∧ (bytes.drop 8).take 4 = asciiBytes "WAVE"
      ∧ (bytes.drop 12).take 4 = asciiBytes "fmt " ∧ readU16 (bytes.drop 20) = 1
      ∧ (bytes.drop 36).take 4 = asciiBytes "data" ∧ 44 ≤ bytes.length then
    some ⟨readU16 (bytes.drop 22), readU16 (bytes.drop 34) / 8,
      readU32 (bytes.drop 24), bytes.drop 44⟩
  else none

/-! ### Metadata sidecar and streaming path -/

/-- The metadata sidecar record (`metadata = {...}` in
`text_to_speech_file`). -/
structure Metadata where
  provider : String
  profile_name : String
  voiceProfile : VoiceProfile
  output_format : String
  text : String
  response : Payload
deriving Repr

/-- The audio-bearing keys stripped from the sidecar payload. -/
def audioKeys : List String := ["audio_base64", "audio_base_64", "audio"]

/-- The metadata record built in `text_to_speech_file` (metadata path):
the response payload keeps every entry whose key is not audio-bearing. -/
def buildMetadata (profile : VoiceProfile) (output_format text : String)
    (payload : Payload) : Metadata :=
  ⟨"elevenlabs", profile.name, profile, output_format, text,
    payload.filter (fun kv => ¬ (kv.1 == "audio_base64" || kv.1 == "audio_base_64"
      || kv.1 == "audio"))⟩

/-- The streaming (no-metadata) branch of `text_to_speech_file`: the audio
file's bytes and the absent metadata result.  For `pcm_16000` the truthy
chunks are accumulated and passed to `_write_audio_file`; otherwise each
truthy chunk is written to the file directly. -/
def streamingResult (output_format : String) (chunks : List (List Nat)) :
    List Nat × Option Metadata :=
  if output_format == "pcm_16000" then
    let raw_audio := chunks.foldl (fun acc chunk => if chunk.isEmpty then acc else acc ++ chunk) []
    (_write_audio_file output_format raw_audio, none)
  else
    let written := chunks.foldl (fun acc chunk => if chunk.isEmpty then acc else acc ++ chunk) []
    (written, none)

/-! ### Concrete scenario data (witness runs) -/

/-- The record `alice.json` from the spec's scenario:
`{"profileId":"alice","voiceId":"v1","modelId":"m1"}`. -/
def aliceItem : Item := [("profileId", PStr "alice"), ("voiceId", PStr "v1"), ("modelId", PStr "m1")]

/-- A second record, `bob.json`. -/
def bobItem : Item := [("profileId", PStr "bob"), ("voiceId", PStr "v2"), ("modelId", PStr "m2")]

/-- The profile the loader builds for `aliceItem`. -/
def aliceProfile : VoiceProfile := ⟨"alice", PStr "alice", PStr "v1", PStr "m1", 1/2, 1/2, 0, 1⟩

/-- The profile the loader builds for `bobItem`. -/
def bobProfile : VoiceProfile := ⟨"bob", PStr "bob", PStr "v2", PStr "m2", 1/2, 1/2, 0, 1⟩

/-- A directory holding `bob.json` and `alice.json`, no marker file. -/
def twoFileDir : ConfigDir := ⟨[("bob.json", bobItem), ("alice.json", aliceItem)], none⟩

/-- The record `alice.json` with no `profileId` field at all (valid `voiceId` and
`modelId`). -/
def noIdItem : Item := [("voiceId", PStr "v1"), ("modelId", PStr "m1")]

/-- A directory whose only record lacks the `profileId` field. -/
def noIdDir : ConfigDir := ⟨[("alice.json", noIdItem)], none⟩

/-- The record `alice.json` declaring `profileId="bob"` and nothing else (so it also
lacks `voiceId`). -/
def bobIdItem : Item := [("profileId", PStr "bob")]

/-- The spec's mismatch scenario directory: `alice.json` declares
`profileId="bob"`. -/
def mismatchDir : ConfigDir := ⟨[("alice.json", bobIdItem)], none⟩

/-! ## Helper lemmas -/

/-- Chars come off the encoder in threes of input bytes; this eliminator
mirrors `b64encodeChars`. -/
theorem threeStepInduction {P : List Nat → Prop} (h0 : P []) (h1 : ∀ a, P [a])
    (h2 : ∀ a b, P [a, b])
    (h3 : ∀ a b c rest, P rest → P (a :: b :: c :: rest)) : ∀ l, P l
  | [] => h0
  | [a] => h1 a
  | [a, b] => h2 a b
  | a :: b :: c :: rest => h3 a b c rest (threeStepInduction h0 h1 h2 h3 rest)

theorem b64val_b64char : ∀ n, n < 64 → b64val (b64char n) = some n := by decide

theorem b64char_ne_pad : ∀ n, n < 64 → (b64char n == '=') = false := by decide

theorem b64Keep_b64char {n : Nat} (h : n < 64) : b64Keep (b64char n) = true := by
  simp [b64Keep, b64val_b64char n h]

theorem b64char_ascii : ∀ n, n < 64 → (b64char n).toNat < 128 := by decide

theorem b64encodeChars_ascii : ∀ X, (∀ x ∈ X, x < 256) →
    (b64encodeChars X).all (fun c => c.toNat < 128) = true := by
  intro X
  induction X using threeStepInduction with
  | h0 => intro _; rfl
  | h1 a =>
      intro h
      have ha : a < 256 := h a (by simp)
      simp [b64encodeChars, b64char_ascii _ (show a / 4 < 64 by omega),
        b64char_ascii _ (show a % 4 * 16 < 64 by omega)]
  | h2 a b =>
      intro h
      have ha : a < 256 := h a (by simp)
      have hb : b < 256 := h b (by simp)
      simp [b64encodeChars, b64char_ascii _ (show a / 4 < 64 by omega),
        b64char_ascii _ (show a % 4 * 16 + b / 16 < 64 by omega),
        b64char_ascii _ (show b % 16 * 4 < 64 by omega)]
  | h3 a b c rest ih =>
      intro h
      have ha : a < 256 := h a (by simp)
      have hb : b < 256 := h b (by simp)
      have hc : c < 256 := h c (by simp)
      have hrest : ∀ x ∈ rest, x < 256 := fun x hx => h x (by simp [hx])
      simp [b64encodeChars, b64char_ascii _ (show a / 4 < 64 by omega),
        b64char_ascii _ (show a % 4 * 16 + b / 16 < 64 by omega),
        b64char_ascii _ (show b % 16 * 4 + c / 64 < 64 by omega),
        b64char_ascii _ (show c % 64 < 64 by omega)]
      simpa using ih hrest

/-- Each sextet the encoder emits is below 64. -/
theorem sextet_bounds {a b c : Nat} (ha : a < 256) (hb : b < 256) (hc : c < 256) :
    a / 4 < 64 ∧ a % 4 * 16 + b / 16 < 64 ∧ b % 16 * 4 + c / 64 < 64 ∧ c % 64 < 64 := by
  omega

theorem b64encodeChars_filter : ∀ X, (∀ x ∈ X, x < 256) →
    List.filter b64Keep (b64encodeChars X) = b64encodeChars X := by
  intro X
  induction X using threeStepInduction with
  | h0 => intro _; rfl
  | h1 a =>
      intro h
      have ha : a < 256 := h a (by simp)
      simp [b64encodeChars, List.filter, b64Keep,
        b64val_b64char _ (show a / 4 < 64 by omega),
        b64val_b64char _ (show a % 4 * 16 < 64 by omega)]
  | h2 a b =>
      intro h
      have ha : a < 256 := h a (by simp)
      have hb : b < 256 := h b (by simp)
      simp [b64encodeChars, List.filter, b64Keep,
        b64val_b64char _ (show a / 4 < 64 by omega),
        b64val_b64char _ (show a % 4 * 16 + b / 16 < 64 by omega),
        b64val_b64char _ (show b % 16 * 4 < 64 by omega)]
  | h3 a b c rest ih =>
      intro h
      have ha : a < 256 := h a (by simp)
      have hb : b < 256 := h b (by simp)
      have hc : c < 256 := h c (by simp)
      have hrest : ∀ x ∈ rest, x < 256 := fun x hx => h x (by simp [hx])
      simp [b64encodeChars, List.filter, b64Keep,
        b64val_b64char _ (show a / 4 < 64 by omega),
        b64val_b64char _ (show a % 4 * 16 + b / 16 < 64 by omega),
        b64val_b64char _ (show b % 16 * 4 + c / 64 < 64 by omega),
        b64val_b64char _ (show c % 64 < 64 by omega), ih hrest]

theorem b64decodeQuads_encode : ∀ X, (∀ x ∈ X, x < 256) →
    b64decodeQuads (b64encodeChars X) = some X := by
  intro X
  induction X using threeStepInduction with
  | h0 => intro _; rfl
  | h1 a =>
      intro h
      have ha : a < 256 := h a (by simp)
      simp only [b64encodeChars, b64decodeQuads,
        b64val_b64char _ (show a / 4 < 64 by omega),
        b64val_b64char _ (show a % 4 * 16 < 64 by omega)]
      simp only [beq_self_eq_true, if_true, Option.some.injEq, List.cons.injEq, and_true]
      omega
  | h2 a b =>
      intro h
      have ha : a < 256 := h a (by simp)
      have hb : b < 256 := h b (by simp)
      simp only [b64encodeChars, b64decodeQuads,
        b64val_b64char _ (show a / 4 < 64 by omega),
        b64val_b64char _ (show a % 4 * 16 + b / 16 < 64 by omega),
        b64val_b64char _ (show b % 16 * 4 < 64 by omega),
        b64char_ne_pad _ (show b % 16 * 4 < 64 by omega)]
      simp only [Bool.false_eq_true, if_false, beq_self_eq_true, if_true,
        Option.some.injEq, List.cons.injEq, and_true]
      omega
  | h3 a b c rest ih =>
      intro h
      have ha : a < 256 := h a (by simp)
      have hb : b < 256 := h b (by simp)
      have hc : c < 256 := h c (by simp)
      have hrest : ∀ x ∈ rest, x < 256 := fun x hx => h x (by simp [hx])
      simp only [b64encodeChars, b64decodeQuads,
        b64val_b64char _ (show a / 4 < 64 by omega),
        b64val_b64char _ (show a % 4 * 16 + b / 16 < 64 by omega),
        b64val_b64char _ (show b % 16 * 4 + c / 64 < 64 by omega),
        b64val_b64char _ (show c % 64 < 64 by omega),
        b64char_ne_pad _ (show b % 16 * 4 + c / 64 < 64 by omega),
        b64char_ne_pad _ (show c % 64 < 64 by omega)]
      simp only [Bool.false_eq_true, if_false, ih hrest, Option.map,
        Option.some.injEq, List.cons.injEq, eq_self_iff_true, and_true]
      omega

/-- Python round-trip: `b64decode(b64encode(X)) == X`. -/
theorem b64decode_b64encode {X : List Nat} (h : ∀ x ∈ X, x < 256) :
    b64decode (b64encode X) = some X := by
  have hl : (b64encode X).toList = b64encodeChars X := rfl
  rw [b64decode, hl, if_pos (b64encodeChars_ascii X h),
    b64encodeChars_filter X h, b64decodeQuads_encode X h]

/-- When the record's `profileId` compares equal to the stem it is the
string `PStr stem`, present in the record. -/
theorem pyGet_of_pyEqStr {item : Item} {k s : String}
    (h : pyEqStr (pyGet item k) s = true) : pyGet item k = PStr s := by
  unfold pyEqStr at h
  cases hv : pyGet item k <;> (rw [hv] at h; simp_all)

/-- A present key makes `pyGetD`'s default irrelevant. -/
theorem pyGetD_of_pyGet_str {item : Item} {k s : String} {d : PyVal}
    (h : pyGet item k = PStr s) : pyGetD item k d = PStr s := by
  unfold pyGet at h
  unfold pyGetD
  cases hl : List.lookup k item <;> rw [hl] at h <;> simp_all

/-- What `_build_profile` guarantees on success: the stored name is the
argument and the stored id is the record's `profileId` (default: the
name). -/
theorem _build_profile_ok {name : String} {item : Item} {p : VoiceProfile}
    (h : _build_profile name item = .ok p) :
    p.name = name ∧ p.profile_id = pyGetD item "profileId" (PStr name) := by
  unfold _build_profile at h
  split at h
  · exact absurd h (by simp)
  · split at h
    · exact absurd h (by simp)
    · split at h <;> (cases h; try exact ⟨rfl, rfl⟩)

/-- Membership after a Python-style dict insertion. -/
theorem mem_dictInsert {acc : List (String × VoiceProfile)} {k : String}
    {v : VoiceProfile} {kv : String × VoiceProfile}
    (h : kv ∈ dictInsert acc k v) : kv = (k, v) ∨ kv ∈ acc := by
  unfold dictInsert at h
  split at h
  · rcases List.mem_map.mp h with ⟨orig, horig, heq⟩
    by_cases hk : orig.1 == k
    · simp [hk] at heq
      exact Or.inl heq.symm
    · simp [hk] at heq
      exact Or.inr (heq ▸ horig)
  · rcases List.mem_append.mp h with hl | hr
    · exact Or.inr hl
    · simp at hr
      exact Or.inl hr

/-- The loader's loop preserves the name/id invariant of the accumulated
profiles. -/
theorem loadLoop_invariant : ∀ (files : List (String × Item))
    (acc res : List (String × VoiceProfile)),
    loadLoop files acc = .ok res →
    (∀ kv ∈ acc, kv.2.name = kv.1 ∧ kv.2.profile_id = PStr kv.1) →
    ∀ kv ∈ res, kv.2.name = kv.1 ∧ kv.2.profile_id = PStr kv.1 := by
  intro files
  induction files with
  | nil => intro acc res h hacc; cases h; exact hacc
  | cons f rest ih =>
      intro acc res h hacc
      obtain ⟨name, item⟩ := f
      unfold loadLoop at h
      split at h
      · exact absurd h (by simp)
      · rename_i hid
        split at h
        · exact absurd h (by simp)
        · rename_i p hp
          refine ih _ res h ?_
          intro kv hkv
          rcases mem_dictInsert hkv with hkv | hkv
          · subst hkv
            have heq : pyEqStr (pyGet item "profileId") (stemOf name) = true := by
              by_contra hne
              exact hid (by simpa using hne)
            obtain ⟨hn, hpid⟩ := _build_profile_ok hp
            refine ⟨hn, ?_⟩
            rw [hpid, pyGetD_of_pyGet_str (pyGet_of_pyEqStr heq)]
          · exact hacc kv hkv

/-- A candidate record whose `profileId` does not equal its file's stem
makes the whole load fail, whatever else the directory holds. -/
theorem loadLoop_error_of_bad : ∀ (files : List (String × Item))
    (acc : List (String × VoiceProfile)) (name : String) (item : Item),
    (name, item) ∈ files → pyEqStr (pyGet item "profileId") (stemOf name) = false →
    ∃ e, loadLoop files acc = .error e := by
  intro files
  induction files with
  | nil => intro acc name item h; cases h
  | cons f rest ih =>
      intro acc name item hmem hbad
      obtain ⟨n0, i0⟩ := f
      unfold loadLoop
      split
      · exact ⟨_, rfl⟩
      · rename_i hid0
        split
        · exact ⟨_, rfl⟩
        · rcases List.mem_cons.mp hmem with hhead | htail
          · exfalso
            injection hhead with hs hi
            subst hs; subst hi
            rw [hbad] at hid0
            exact hid0 (by simp)
          · exact ih _ name item htail hbad

/-- Insertion keeps exactly the old elements plus the new one. -/
theorem mem_insertByName {x y : String × Item} : ∀ l : List (String × Item),
    x ∈ insertByName y l ↔ x = y ∨ x ∈ l := by
  intro l
  induction l with
  | nil => simp [insertByName]
  | cons z zs ih =>
      unfold insertByName
      split
      · simp
      · simp only [List.mem_cons, ih]
        tauto

/-- The sorted candidate list holds exactly the records whose file name
`glob("*.json")` matches. -/
theorem mem_sortFiles {x : String × Item} {files : List (String × Item)} :
    x ∈ sortFiles files ↔ x ∈ files ∧ matchesJson x.1 = true := by
  unfold sortFiles
  have main : ∀ l : List (String × Item), x ∈ l.foldr insertByName [] ↔ x ∈ l := by
    intro l
    induction l with
    | nil => simp
    | cons z zs ih => simp [mem_insertByName, ih]
  rw [main, List.mem_filter]

/-- Inserting never empties the dict. -/
theorem dictInsert_ne_nil {acc : List (String × VoiceProfile)} {k : String}
    {v : VoiceProfile} : dictInsert acc k v ≠ [] := by
  unfold dictInsert
  split
  · rename_i hk
    cases acc with
    | nil => simp [keyMem] at hk
    | cons a t => simp
  · simp

/-- Insertion does not change the first key of a nonempty dict. -/
theorem dictInsert_head_key {acc : List (String × VoiceProfile)} {k : String}
    {v : VoiceProfile} (h : acc ≠ []) :
    (dictInsert acc k v).head?.map Prod.fst = acc.head?.map Prod.fst := by
  obtain ⟨⟨k0, v0⟩, t, rfl⟩ : ∃ a t, acc = a :: t := by
    cases acc with
    | nil => exact absurd rfl h
    | cons a t => exact ⟨a, t, rfl⟩
  unfold dictInsert
  split
  · by_cases hk : k0 = k
    · simp_all
    · simp [hk]
  · simp

/-- A successful loop run keeps the accumulator's first key. -/
theorem loadLoop_head_key : ∀ (files : List (String × Item))
    (acc res : List (String × VoiceProfile)), loadLoop files acc = .ok res →
    acc ≠ [] → res.head?.map Prod.fst = acc.head?.map Prod.fst := by
  intro files
  induction files with
  | nil => intro acc res h hne; cases h; rfl
  | cons f rest ih =>
      intro acc res h hne
      obtain ⟨name, item⟩ := f
      unfold loadLoop at h
      split at h
      · exact absurd h (by simp)
      · split at h
        · exact absurd h (by simp)
        · rw [ih _ res h dictInsert_ne_nil, dictInsert_head_key hne]

/-- A successful loop run never empties a nonempty accumulator. -/
theorem loadLoop_ne_nil : ∀ (files : List (String × Item))
    (acc res : List (String × VoiceProfile)), loadLoop files acc = .ok res →
    acc ≠ [] → res ≠ [] := by
  intro files
  induction files with
  | nil => intro acc res h hne; cases h; exact hne
  | cons f rest ih =>
      intro acc res h hne
      obtain ⟨name, item⟩ := f
      unfold loadLoop at h
      split at h
      · exact absurd h (by simp)
      · split at h
        · exact absurd h (by simp)
        · exact ih _ res h dictInsert_ne_nil

/-- Keys after an insertion: the inserted key or an old key. -/
theorem keyMem_dictInsert {acc : List (String × VoiceProfile)} {k k0 : String}
    {v : VoiceProfile} (h : keyMem (dictInsert acc k0 v) k = true) :
    keyMem acc k = true ∨ k = k0 := by
  unfold dictInsert at h
  split at h
  · unfold keyMem at h ⊢
    rcases List.any_eq_true.mp h with ⟨kv, hkv, hk⟩
    rcases List.mem_map.mp hkv with ⟨orig, horig, heq⟩
    by_cases h0 : orig.1 = k0
    · right
      rw [← heq, if_pos (by simpa using h0)] at hk
      have hk0 : k0 = k := by simpa using hk
      exact hk0.symm
    · left
      refine List.any_eq_true.mpr ⟨orig, horig, ?_⟩
      rw [← heq, if_neg (by simpa using h0)] at hk
      exact hk
  · unfold keyMem at h ⊢
    rcases List.any_eq_true.mp h with ⟨kv, hkv, hk⟩
    rcases List.mem_append.mp hkv with hl | hr
    · exact Or.inl (List.any_eq_true.mpr ⟨kv, hl, hk⟩)
    · simp at hr
      subst hr
      simp at hk
      exact Or.inr hk.symm

/-- Every key of a successful run comes from the accumulator or is the
stem of a processed file. -/
theorem loadLoop_keys_sub : ∀ (files : List (String × Item))
    (acc res : List (String × VoiceProfile)) (k : String),
    loadLoop files acc = .ok res → keyMem res k = true →
    keyMem acc k = true ∨ k ∈ files.map (fun f => stemOf f.1) := by
  intro files
  induction files with
  | nil => intro acc res k h hk; cases h; exact Or.inl hk
  | cons f rest ih =>
      intro acc res k h hk
      obtain ⟨name, item⟩ := f
      unfold loadLoop at h
      split at h
      · exact absurd h (by simp)
      · split at h
        · exact absurd h (by simp)
        · rcases ih _ res k h hk with hacc | hrest
          · rcases keyMem_dictInsert hacc with hacc | hstem
            · exact Or.inl hacc
            · exact Or.inr (by simp [hstem])
          · exact Or.inr (by simp [hrest])

/-- The first key of a nonempty dict is a key. -/
theorem keyMem_headKey {res : List (String × VoiceProfile)} (h : res ≠ []) :
    keyMem res (headKey res) = true := by
  cases res with
  | nil => exact absurd rfl h
  | cons a t => simp [headKey, keyMem]

/-- The last dot of a name ending in `.json` is the one starting that
suffix. -/
theorem lastDotPos_json : ∀ Y : List Char,
    lastDotPos (Y ++ ['.', 'j', 's', 'o', 'n']) = some Y.length := by
  intro Y
  induction Y with
  | nil => rfl
  | cons y ys ih => simp [lastDotPos, ih]

/-- The stem of a `glob("*.json")`-matched name is never empty: either the
name is `.json` itself (its own stem) or the part before the suffix is
nonempty. -/
theorem stemOf_json_ne_empty {name : String} (h : matchesJson name = true) :
    stemOf name ≠ "" := by
  unfold matchesJson at h
  rw [Bool.and_eq_true, decide_eq_true_iff, beq_iff_eq] at h
  obtain ⟨h5, hdrop⟩ := h
  obtain ⟨Y, hY, hYlen⟩ : ∃ Y, name.toList = Y ++ ['.', 'j', 's', 'o', 'n']
      ∧ Y.length = name.toList.length - 5 := by
    refine ⟨name.toList.take (name.toList.length - 5), ?_, ?_⟩
    · conv_lhs => rw [← List.take_append_drop (name.toList.length - 5) name.toList]
      rw [hdrop]
    · rw [List.length_take]
      omega
  have hpos : lastDotPos name.toList = some Y.length := by
    rw [hY, lastDotPos_json]
  have hlen : name.toList.length = Y.length + 5 := by
    rw [hY]
    simp
  have hstem : stemOf name = if 0 < Y.length ∧ Y.length < name.toList.length - 1
      then String.mk (name.toList.take Y.length) else name := by
    unfold stemOf
    rw [hpos]
  rw [hstem]
  by_cases hY0 : Y.length = 0
  · rw [if_neg (by omega)]
    intro hname
    have hnil : name.toList = [] := by rw [hname]; rfl
    rw [hnil] at h5
    simp at h5
  · rw [if_pos ⟨by omega, by omega⟩]
    intro hmk
    have htake : name.toList.take Y.length = Y := by
      rw [hY]
      exact List.take_left Y _
    rw [htake] at hmk
    have : Y = [] := congrArg String.data hmk
    rw [this] at hY0
    simp at hY0

/-- Candidate stems are nonempty. -/
theorem sortFiles_stem_ne_empty {files : List (String × Item)} :
    ∀ x ∈ sortFiles files, stemOf x.1 ≠ "" := by
  intro x hx
  exact stemOf_json_ne_empty (mem_sortFiles.mp hx).2

/-- The empty string is never a key of a load from real candidates. -/
theorem loadLoop_no_empty_key {files : List (String × Item)}
    {P : List (String × VoiceProfile)} (hs : ∀ x ∈ files, stemOf x.1 ≠ "")
    (h : loadLoop files [] = .ok P) : keyMem P "" = false := by
  by_contra hk
  rcases loadLoop_keys_sub files [] P "" h (by simpa using hk) with h1 | h2
  · simp [keyMem] at h1
  · rcases List.mem_map.mp h2 with ⟨x, hx, hx1⟩
    exact hs x hx hx1

/-- A candidate record (any file `glob("*.json")` matches, dotfiles
included) whose `profileId` does not compare equal to its stem makes the
whole `load_voice_profiles` run fail. -/
theorem load_error_of_bad_record : ∀ (d : ConfigDir) (name : String) (item : Item),
    (name, item) ∈ d.jsonFiles → matchesJson name = true →
    pyEqStr (pyGet item "profileId") (stemOf name) = false →
    ∃ e, load_voice_profiles (some d) = .error e := by
  intro d name item hmem hmatch hbad
  have hmemS : (name, item) ∈ sortFiles d.jsonFiles := mem_sortFiles.mpr ⟨hmem, hmatch⟩
  obtain ⟨e, he⟩ := loadLoop_error_of_bad (sortFiles d.jsonFiles) [] name item hmemS hbad
  refine ⟨e, ?_⟩
  simp only [load_voice_profiles, _load_from_directory]
  have hne : (sortFiles d.jsonFiles).isEmpty = false := by
    cases hfiles : sortFiles d.jsonFiles with
    | nil => rw [hfiles] at hmemS; cases hmemS
    | cons a t => rfl
  rw [if_neg (by simp [hne]), he]

/-- Every mapping a successful load returns satisfies the name/id
invariant. -/
theorem load_ok_invariant : ∀ (cfg : Option ConfigDir)
    (profiles : List (String × VoiceProfile)) (dflt : String),
    load_voice_profiles cfg = .ok (profiles, dflt) →
    ∀ k p, (k, p) ∈ profiles → p.name = k ∧ p.profile_id = PStr k := by
  intro cfg profiles dflt h k p hmem
  cases cfg with
  | none => exact absurd h (by simp [load_voice_profiles])
  | some d =>
      simp only [load_voice_profiles, _load_from_directory] at h
      split at h
      · exact absurd h (by simp)
      · split at h
        · exact absurd h (by simp)
        · rename_i P hP
          injection h with h'
          injection h' with h1 h2
          subst h1
          exact loadLoop_invariant _ _ _ hP (by intro kv hkv; cases hkv) (k, p) hmem

/-! ## The claims -/

/-- C1: every profile the loader returns satisfies `profileId == name ==
mapping key`, and a candidate record (any file `glob("*.json")` matches)
whose `profileId` does not equal its filename stem makes the load fail
with an error instead of being coerced. -/
theorem c1_profile_id_invariant :
    (∀ (cfg : Option ConfigDir) (profiles : List (String × VoiceProfile)) (dflt : String),
      load_voice_profiles cfg = .ok (profiles, dflt) →
      ∀ k p, (k, p) ∈ profiles → p.name = k ∧ p.profile_id = PStr k)
    ∧ (∀ (d : ConfigDir) (name : String) (item : Item),
        (name, item) ∈ d.jsonFiles → matchesJson name = true →
        pyEqStr (pyGet item "profileId") (stemOf name) = false →
        ∃ e, load_voice_profiles (some d) = .error e) :=
  ⟨load_ok_invariant, load_error_of_bad_record⟩

/-- C1 witness: the two-file directory loads with the invariant holding
for `alice`, and the record without a matching id is rejected. -/
theorem c1_witness :
    aliceProfile.name = "alice" ∧ aliceProfile.profile_id = PStr "alice"
      ∧ (∃ e, load_voice_profiles (some noIdDir) = .error e) := by
  have h1 := c1_profile_id_invariant.1 (some twoFileDir)
    [("alice", aliceProfile), ("bob", bobProfile)] "alice" rfl "alice" aliceProfile
    (List.mem_cons_self _ _)
  exact ⟨h1.1, h1.2, c1_profile_id_invariant.2 noIdDir "alice.json" noIdItem
    (List.mem_cons_self _ _) (by decide) (by decide)⟩

/-- C2 counterexample: a record with valid `voiceId`/`modelId` but no
`profileId` field does not load; it is rejected with the id-mismatch
error (`None` never equals the stem). -/
theorem c2_counterexample :
    load_voice_profiles (some noIdDir) = .error (.profileIdMismatch "alice.json" PNone)
      ∧ ¬ ∃ r, load_voice_profiles (some noIdDir) = .ok r := by
  refine ⟨rfl, ?_⟩
  rintro ⟨r, hr⟩
  rw [show load_voice_profiles (some noIdDir)
      = .error (.profileIdMismatch "alice.json" PNone) from rfl] at hr
  cases hr

/-- C2 (amended): a `profileId` field that does not equal the stem — and
equally a record with no `profileId` field at all, whose absent value reads
as `None` — fails the load; when the record is first in sorted order the
error cites the filename and the declared id. -/
theorem c2_amended_profile_id_required : ∀ (d : ConfigDir) (name : String) (item : Item),
    (name, item) ∈ d.jsonFiles → matchesJson name = true →
    pyEqStr (pyGet item "profileId") (stemOf name) = false →
    (∃ e, load_voice_profiles (some d) = .error e)
    ∧ (∀ rest, sortFiles d.jsonFiles = (name, item) :: rest →
        load_voice_profiles (some d) =
          .error (.profileIdMismatch name (pyGet item "profileId"))) := by
  intro d name item hmem hmatch hbad
  constructor
  · exact load_error_of_bad_record d name item hmem hmatch hbad
  · intro rest hsort
    simp only [load_voice_profiles, _load_from_directory, hsort]
    rw [if_neg (by simp)]
    unfold loadLoop
    rw [if_pos (by simp [hbad])]

/-- C2 witness: the concrete no-`profileId` record is rejected with the
mismatch error citing `alice.json` and the absent (`None`) id. -/
theorem c2_witness :
    load_voice_profiles (some noIdDir) =
      .error (.profileIdMismatch "alice.json" (pyGet noIdItem "profileId")) :=
  (c2_amended_profile_id_required noIdDir "alice.json" noIdItem (List.mem_cons_self _ _)
    (by decide) (by decide)).2 [] rfl

/-- C3 counterexample: `alice.json` declaring `profileId="bob"` and no
`voiceId` fails with the id-mismatch error, not with the missing-`voiceId`
error the claim predicts. -/
theorem c3_counterexample :
    load_voice_profiles (some mismatchDir)
        = .error (.profileIdMismatch "alice.json" (PStr "bob"))
      ∧ load_voice_profiles (some mismatchDir) ≠ .error (.missingVoiceId "alice") :=
  ⟨rfl, by decide⟩

/-- C3 (amended): per-record validation runs the `profileId` check first,
then `voiceId`, then `modelId`; a record missing `voiceId` that also has a
`profileId`/filename mismatch fails citing the mismatch. -/
theorem c3_amended_validation_order : ∀ (name : String) (item : Item)
    (acc : List (String × VoiceProfile)) (rest : List (String × Item)),
    (pyEqStr (pyGet item "profileId") (stemOf name) = false →
      loadLoop ((name, item) :: rest) acc =
        .error (.profileIdMismatch name (pyGet item "profileId")))
    ∧ (pyEqStr (pyGet item "profileId") (stemOf name) = true →
        truthy (pyGet item "voiceId") = false →
        loadLoop ((name, item) :: rest) acc = .error (.missingVoiceId (stemOf name)))
    ∧ (pyEqStr (pyGet item "profileId") (stemOf name) = true →
        truthy (pyGet item "voiceId") = true →
        truthy (pyGet item "modelId") = false →
        loadLoop ((name, item) :: rest) acc = .error (.missingModelId (stemOf name))) := by
  intro name item acc rest
  refine ⟨?_, ?_, ?_⟩
  · intro hbad
    unfold loadLoop
    rw [if_pos (by simp [hbad])]
  · intro hgood hvoice
    unfold loadLoop
    rw [if_neg (by simp [hgood])]
    unfold _build_profile
    rw [if_pos (by simp [hvoice])]
  · intro hgood hvoice hmodel
    unfold loadLoop
    rw [if_neg (by simp [hgood])]
    unfold _build_profile
    rw [if_neg (by simp [hvoice]), if_pos (by simp [hmodel])]

/-- C3 witness: the three error precedences at concrete records — id
mismatch beats missing `voiceId`; with a matching id, missing `voiceId`
beats missing `modelId`. -/
theorem c3_witness :
    loadLoop [("alice.json", bobIdItem)] [] =
        .error (.profileIdMismatch "alice.json" (pyGet bobIdItem "profileId"))
      ∧ loadLoop [("alice.json", [("profileId", PStr "alice")])] []
          = .error (.missingVoiceId (stemOf "alice.json"))
      ∧ loadLoop [("alice.json", [("profileId", PStr "alice"), ("voiceId", PStr "v1")])] []
          = .error (.missingModelId (stemOf "alice.json")) :=
  ⟨(c3_amended_validation_order "alice.json" bobIdItem [] []).1 (by decide),
    (c3_amended_validation_order "alice.json" [("profileId", PStr "alice")] [] []).2.1
      (by decide) (by decide),
    (c3_amended_validation_order "alice.json"
      [("profileId", PStr "alice"), ("voiceId", PStr "v1")] [] []).2.2
      (by decide) (by decide) (by decide)⟩

/-- C4: the resolved default is always a key of the returned mapping; a
marker whose trimmed content names a loaded profile picks that profile,
and otherwise — unknown marker name or no marker — the default is the
first profile in sorted filename order. -/
theorem c4_default_resolution : ∀ (d : ConfigDir) (profiles : List (String × VoiceProfile))
    (dflt : String), load_voice_profiles (some d) = .ok (profiles, dflt) →
    keyMem profiles dflt = true
    ∧ (∀ s, d.defaultMarker = some s → keyMem profiles s.trim = true → dflt = s.trim)
    ∧ ((d.defaultMarker = none ∨
        ∃ s, d.defaultMarker = some s ∧ keyMem profiles s.trim = false) →
        (sortFiles d.jsonFiles).head?.map (fun f => stemOf f.1) = some dflt) := by
  intro d profiles dflt h
  simp only [load_voice_profiles, _load_from_directory] at h
  split at h
  · exact absurd h (by simp)
  · rename_i hne
    split at h
    · exact absurd h (by simp)
    · rename_i P hP
      injection h with h'
      injection h' with h1 h2
      rw [h1] at hP h2
      obtain ⟨n0, i0, rest, hfiles⟩ :
          ∃ n0 i0 rest, sortFiles d.jsonFiles = (n0, i0) :: rest := by
        cases hf : sortFiles d.jsonFiles with
        | nil => rw [hf] at hne; exact absurd rfl hne
        | cons a t =>
            obtain ⟨n0, i0⟩ := a
            exact ⟨n0, i0, t, rfl⟩
      rw [hfiles] at hP
      have hPne : profiles ≠ [] := by
        unfold loadLoop at hP
        split at hP
        · exact absurd hP (by simp)
        · split at hP
          · exact absurd hP (by simp)
          · exact loadLoop_ne_nil _ _ _ hP dictInsert_ne_nil
      have hhead : profiles.head?.map Prod.fst = some (stemOf n0) := by
        unfold loadLoop at hP
        split at hP
        · exact absurd hP (by simp)
        · split at hP
          · exact absurd hP (by simp)
          · rw [loadLoop_head_key _ _ _ hP dictInsert_ne_nil]
            rfl
      have hheadKey : headKey profiles = stemOf n0 := by
        cases profiles with
        | nil => exact absurd rfl hPne
        | cons a t =>
            obtain ⟨k0, v0⟩ := a
            have hh : k0 = stemOf n0 := by simpa using hhead
            simp [headKey, hh]
      have hPs : loadLoop (sortFiles d.jsonFiles) [] = Except.ok profiles := by
        rw [hfiles]
        exact hP
      have hnoEmpty : keyMem profiles "" = false :=
        loadLoop_no_empty_key (fun x hx => sortFiles_stem_ne_empty x hx) hPs
      refine ⟨?_, ?_, ?_⟩
      · rw [← h2]
        split
        · assumption
        · exact keyMem_headKey hPne
      · intro s hs htrim
        rw [← h2, hs]
        simp only [markerContent]
        rw [if_pos htrim]
      · intro hcase
        have hno : keyMem profiles (markerContent d.defaultMarker) = false := by
          rcases hcase with hnone | ⟨s, hs, htrim⟩
          · rw [hnone]
            exact hnoEmpty
          · rw [hs]
            exact htrim
        rw [hfiles]
        simp only [Option.map, List.head?]
        rw [← h2, if_neg (by simp [hno]), hheadKey]

/-- C4 witness: in the two-file directory with no marker the default is
`alice` (first in sorted filename order) and is a key of the mapping. -/
theorem c4_witness :
    keyMem [("alice", aliceProfile), ("bob", bobProfile)] "alice" = true :=
  (c4_default_resolution twoFileDir [("alice", aliceProfile), ("bob", bobProfile)]
    "alice" rfl).1

/-- A decodable string at the head of the candidate list wins. -/
theorem firstAudio_str_head {s : String} {X : List Nat} {rest : List RespVal}
    (h : b64decode s = some X) : firstAudio (RStr s :: rest) = some X := by
  unfold firstAudio
  rw [h]

/-- C5: a payload whose `audio_base64` field holds the base64 encoding of
bytes `X` extracts to exactly `X`, whatever else the payload or the
response object holds (the field is first in the fixed priority order);
and with no audio field on the mapping, a byte-valued `audio_base64`
attribute of the response object is used instead. -/
theorem c5_extraction_roundtrip :
    (∀ (X : List Nat) (rest : Payload) (response_obj : List (String × RespVal)),
      (∀ x ∈ X, x < 256) →
      _extract_audio_bytes (("audio_base64", RStr (b64encode X)) :: rest) response_obj
        = .ok X)
    ∧ (∀ (B : List Nat) (payload : Payload) (response_obj : List (String × RespVal)),
        List.lookup "audio_base64" payload = none →
        List.lookup "audio_base_64" payload = none →
        List.lookup "audio" payload = none →
        List.lookup "audio_base64" response_obj = some (RBytes B) →
        _extract_audio_bytes payload response_obj = .ok B) := by
  constructor
  · intro X rest response_obj h
    unfold _extract_audio_bytes audioCandidates
    have h1 : payloadGet (("audio_base64", RStr (b64encode X)) :: rest) "audio_base64"
        = RStr (b64encode X) := by simp [payloadGet, List.lookup]
    rw [h1]
    rw [show (RStr (b64encode X)
        :: [payloadGet (("audio_base64", RStr (b64encode X)) :: rest) "audio_base_64",
          payloadGet (("audio_base64", RStr (b64encode X)) :: rest) "audio"])
        ++ List.filterMap (fun attr => List.lookup attr response_obj)
          ["audio_base64", "audio_base_64", "audio"]
      = RStr (b64encode X)
        :: ([payloadGet (("audio_base64", RStr (b64encode X)) :: rest) "audio_base_64",
          payloadGet (("audio_base64", RStr (b64encode X)) :: rest) "audio"]
        ++ List.filterMap (fun attr => List.lookup attr response_obj)
          ["audio_base64", "audio_base_64", "audio"]) from rfl]
    rw [firstAudio_str_head (b64decode_b64encode h)]
  · intro B payload response_obj h1 h2 h3 h4
    unfold _extract_audio_bytes audioCandidates payloadGet
    rw [h1, h2, h3]
    simp only [List.filterMap, h4]
    simp [firstAudio]

/-- C5 witness: a concrete payload with `audio_base64` holding the base64
of `[1, 255, 0, 33]` beats a bytes-valued `audio` field and a bytes-valued
response attribute. -/
theorem c5_witness :
    _extract_audio_bytes [("audio_base64", RStr (b64encode [1, 255, 0, 33])),
        ("audio", RBytes [9])] [("audio_base64", RBytes [7])] = .ok [1, 255, 0, 33] :=
  c5_extraction_roundtrip.1 [1, 255, 0, 33] [("audio", RBytes [9])]
    [("audio_base64", RBytes [7])] (by decide)

/-- The WAV bytes, written out. -/
theorem wavBytes_cons (pcm : List Nat) : wavBytes pcm =
    82 :: 73 :: 70 :: 70
    :: ((36 + pcm.length) % 256) :: ((36 + pcm.length) / 256 % 256)
    :: ((36 + pcm.length) / 65536 % 256) :: ((36 + pcm.length) / 16777216 % 256)
    :: 87 :: 65 :: 86 :: 69 :: 102 :: 109 :: 116 :: 32 :: 16 :: 0 :: 0 :: 0
    :: 1 :: 0 :: 1 :: 0 :: 128 :: 62 :: 0 :: 0 :: 0 :: 125 :: 0 :: 0
    :: 2 :: 0 :: 16 :: 0 :: 100 :: 97 :: 116 :: 97
    :: (pcm.length % 256) :: (pcm.length / 256 % 256)
    :: (pcm.length / 65536 % 256) :: (pcm.length / 16777216 % 256) :: pcm := rfl

/-- C6: for `pcm_16000` the extension is `wav` and the written file is a
RIFF/WAVE container declaring 1 channel, 2-byte samples and 16000 Hz,
whose payload is exactly the input bytes (hence exactly their length). -/
theorem c6_pcm_wav_container : ∀ pcm : List Nat,
    _extension_for_output_format "pcm_16000" = "wav"
    ∧ readWav (_write_audio_file "pcm_16000" pcm) = some ⟨1, 2, 16000, pcm⟩
    ∧ (readWav (_write_audio_file "pcm_16000" pcm)).map (fun i => i.data.length)
        = some pcm.length := by
  intro pcm
  have hwrite : _write_audio_file "pcm_16000" pcm = wavBytes pcm := rfl
  have h2 : readWav (_write_audio_file "pcm_16000" pcm) = some ⟨1, 2, 16000, pcm⟩ := by
    rw [hwrite, wavBytes_cons]
    unfold readWav
    rw [if_pos]
    · norm_num [readU16, readU32]
    · refine ⟨rfl, rfl, rfl, rfl, rfl, ?_⟩
      simp
  exact ⟨rfl, h2, by rw [h2]; rfl⟩

/-- A prefix free of the separator is what `takeWhile` keeps. -/
theorem takeWhile_prefix_underscore : ∀ (p q : List Char), '_' ∉ p →
    (p ++ '_' :: q).takeWhile (fun c => c ≠ '_') = p := by
  intro p q
  induction p with
  | nil => intro _; simp [List.takeWhile]
  | cons a as ih =>
      intro h
      have ha : a ≠ '_' := fun he => h (he ▸ List.mem_cons_self _ _)
      have ih' := ih (fun hm => h (List.mem_cons_of_mem _ hm))
      simp only [List.cons_append, List.takeWhile]
      simp [ha]
      simpa using ih'

/-- C7: every format other than `pcm_16000` writes the bytes verbatim, and
its extension is the substring before the first underscore. -/
theorem c7_other_formats_verbatim : ∀ (output_format : String) (audio_bytes : List Nat)
    (p q : List Char), output_format ≠ "pcm_16000" →
    _write_audio_file output_format audio_bytes = audio_bytes
    ∧ (output_format.toList = p ++ '_' :: q → '_' ∉ p →
        _extension_for_output_format output_format = String.mk p) := by
  intro fmt audio_bytes p q h
  constructor
  · unfold _write_audio_file
    rw [if_neg (by simp [h])]
  · intro hsplit hp
    unfold _extension_for_output_format
    rw [if_neg (by simp [h]), hsplit, takeWhile_prefix_underscore p q hp]

/-- C7 witness: `mp3_22050_32` writes bytes unchanged and chooses the
extension `mp3`. -/
theorem c7_witness :
    _write_audio_file "mp3_22050_32" [0, 1] = [0, 1]
    ∧ _extension_for_output_format "mp3_22050_32" = String.mk ['m', 'p', '3'] :=
  ⟨(c7_other_formats_verbatim "mp3_22050_32" [0, 1] ['m', 'p', '3']
      ['2', '2', '0', '5', '0', '_', '3', '2'] (by decide)).1,
    (c7_other_formats_verbatim "mp3_22050_32" [0, 1] ['m', 'p', '3']
      ['2', '2', '0', '5', '0', '_', '3', '2'] (by decide)).2 (by decide) (by decide)⟩

/-- C8: the metadata sidecar's `response` field never holds an
audio-bearing key, and every non-audio entry of the payload is preserved
in it unchanged. -/
theorem c8_metadata_strips_audio : ∀ (profile : VoiceProfile) (output_format text : String)
    (payload : Payload),
    (∀ k v, (k, v) ∈ (buildMetadata profile output_format text payload).response →
      k ≠ "audio_base64" ∧ k ≠ "audio_base_64" ∧ k ≠ "audio")
    ∧ (∀ k v, k ≠ "audio_base64" → k ≠ "audio_base_64" → k ≠ "audio" →
        ((k, v) ∈ (buildMetadata profile output_format text payload).response
          ↔ (k, v) ∈ payload)) := by
  intro profile output_format text payload
  constructor
  · intro k v hmem
    have := (List.mem_filter.mp hmem).2
    simp at this
    exact ⟨this.1.1, this.1.2, this.2⟩
  · intro k v h1 h2 h3
    constructor
    · intro hmem
      exact (List.mem_filter.mp hmem).1
    · intro hmem
      exact List.mem_filter.mpr ⟨hmem, by simp [h1, h2, h3]⟩

/-- The accumulating chunk loop is concatenation of the truthy chunks. -/
theorem foldl_chunks : ∀ (chunks : List (List Nat)) (acc : List Nat),
    chunks.foldl (fun acc chunk => if chunk.isEmpty then acc else acc ++ chunk) acc
      = acc ++ (chunks.filter (fun c => ¬ c.isEmpty)).flatten := by
  intro chunks
  induction chunks with
  | nil => intro acc; simp
  | cons c cs ih =>
      intro acc
      simp only [List.foldl_cons, List.filter_cons]
      by_cases hc : c.isEmpty
      · rw [if_pos hc, if_neg (by simp [hc]), ih]
      · rw [if_neg hc, if_pos (by simp [hc]), ih, List.flatten_cons, List.append_assoc]

/-- C9: the streaming (no-metadata) path skips empty chunks, writes the
concatenation of the remaining chunks in arrival order through the same
container selection, and returns no metadata. -/
theorem c9_streaming_concat : ∀ (output_format : String) (chunks : List (List Nat)),
    streamingResult output_format chunks =
      (_write_audio_file output_format
        ((chunks.filter (fun c => ¬ c.isEmpty)).flatten), none) := by
  intro fmt chunks
  unfold streamingResult
  split
  · rw [foldl_chunks]
    simp
  · rename_i h
    rw [foldl_chunks]
    simp only [List.nil_append]
    unfold _write_audio_file
    rw [if_neg (by simp_all)]

/-- Without the separator `takeWhile` keeps everything. -/
theorem takeWhile_no_underscore : ∀ l : List Char, (∀ c ∈ l, c ≠ '_') →
    l.takeWhile (fun c => c ≠ '_') = l := by
  intro l
  induction l with
  | nil => intro _; rfl
  | cons a as ih =>
      intro h
      have ha : a ≠ '_' := h a (List.mem_cons_self _ _)
      have ih' := ih (fun c hc => h c (List.mem_cons_of_mem _ hc))
      simp only [List.takeWhile]
      simp [ha]
      simpa using ih'

/-- C10: the extension function is total, and on a format identifier other
than `pcm_16000` containing no underscore it returns the identifier
itself. -/
theorem c10_no_underscore_identity : ∀ output_format : String,
    output_format ≠ "pcm_16000" → (∀ c ∈ output_format.toList, c ≠ '_') →
    _extension_for_output_format output_format = output_format := by
  intro fmt h hc
  unfold _extension_for_output_format
  rw [if_neg (by simp [h]), takeWhile_no_underscore _ hc]
  rfl

/-- C10 witness: format `mp3` maps to extension `mp3`. -/
theorem c10_witness : _extension_for_output_format "mp3" = "mp3" :=
  c10_no_underscore_identity "mp3" (by decide) (by decide)

end TtsTest
